import Mathlib

/-!
Shallow embedding of `src/main.py` (cf_process_file_handler_v2): a Cloud Function that
scrubs phone numbers in an uploaded CSV against an external suppression API and writes a
"clean" file (suppressed phones blanked) and a "blacklisted" file (only suppressed phones
retained, merged per lead).

Python rows become `List String`; the Python `set` of phones becomes a duplicate-free
`List String` built in insertion order; the suppressed-rows `dict` (insertion ordered)
becomes an association list; code that can raise (`IndexError`, a failed API call, a
failed upload) returns `Option`/`Except`; the external API and the blob store are
parameters (a response table and success flags).
-/

namespace CFProcess

/-- A CSV row as produced by `csv.reader`: an ordered list of string cells. -/
abbrev Row := List String

/-- `MAX_PAYLOAD_SIZE` (main.py line 13): 1 MiB ceiling on a serialized API payload. -/
def MAX_PAYLOAD_SIZE : Nat := 1048576

/-- Python `str.strip()` whitespace test (ASCII part): space, tab, newline, carriage
return, vertical tab, form feed. -/
def isSpaceChar (c : Char) : Bool :=
  c = ' ' || c = '\t' || c = '\n' || c = '\r' || c = '\x0b' || c = '\x0c'

/-- Python `str.strip()`: drop leading and trailing whitespace. -/
def pyStrip (s : String) : String :=
  String.mk (((s.toList.dropWhile isSpaceChar).reverse.dropWhile isSpaceChar).reverse)

/-! ### Payload size (json.dumps with default options) -/

/-- Number of UTF-8 bytes `json.dumps` (default `ensure_ascii=True`) spends on one
character inside a JSON string literal: `"` and `\` are escaped to two bytes; the named
escapes `\b \t \n \f \r` take two bytes; any other control character takes six
(`\u00XX`); printable ASCII is emitted as itself (one byte); any other character up to
U+FFFF takes six (`\uXXXX`); astral characters take twelve (a surrogate pair). -/
def jsonEscLen (c : Char) : Nat :=
  if c = '"' || c = '\\' then 2
  else if c = '\n' || c = '\r' || c = '\t' || c.toNat = 8 || c.toNat = 12 then 2
  else if c.toNat < 32 then 6
  else if c.toNat ≤ 126 then 1
  else if c.toNat ≤ 65535 then 6
  else 12

/-- Byte length of `json.dumps` applied to one phone string (the two quotes plus the
escaped characters); the output is pure ASCII, so bytes = characters. -/
def jsonStrBytes (s : String) : Nat := 2 + (s.toList.map jsonEscLen).sum

/-- Byte length of `json.dumps({"phones": batch})` with the default separators
`", "` and `": "`: the fixed frame `\x7b"phones": []\x7d` is 14 bytes, each phone costs
its quoted-escaped length, and consecutive phones are separated by `", "` (2 bytes). -/
def payloadBytes (batch : List String) : Nat :=
  14 + (batch.map jsonStrBytes).sum + (if batch.isEmpty then 0 else 2 * (batch.length - 1))

/-! ### Payload batcher (`call_blacklist_lookup_batched`, main.py lines 266-279) -/

/-- One iteration of the batching loop (main.py lines 268-277): append the phone, measure
the payload; if over the ceiling, pop the phone back off, close the current batch when it
is non-empty, and start a fresh batch holding just this phone. -/
def batchStep (acc : List (List String) × List String) (phone : String) :
    List (List String) × List String :=
  let current' := acc.2 ++ [phone]
  if payloadBytes current' > MAX_PAYLOAD_SIZE then
    if acc.2.isEmpty then (acc.1, [phone])
    else (acc.1 ++ [acc.2], [phone])
  else (acc.1, current')

/-- The batch partition built by `call_blacklist_lookup_batched` (main.py lines 266-279):
fold the loop over the phone list, then flush the final non-empty batch. -/
def makeBatches (phoneList : List String) : List (List String) :=
  let acc := phoneList.foldl batchStep ([], [])
  if acc.2.isEmpty then acc.1 else acc.1 ++ [acc.2]

/-! ### Suppression API client (`call_blacklist_lookup`, main.py lines 287-306) -/

/-- The observable part of one HTTP response from the suppression API: the status code,
the raw body text, and the `supression` field of the JSON body (`none` when absent). -/
structure ApiResponse where
  status : Nat
  body : String
  supression : Option (List String)

/-- `call_blacklist_lookup` (main.py lines 294-306): raise (here `Except.error`, carrying
the status code and body text) when the status code is not 200; otherwise return
`response_json.get("supression", [])`. -/
def call_blacklist_lookup (resp : ApiResponse) : Except (Nat × String) (List String) :=
  if resp.status ≠ 200 then Except.error (resp.status, resp.body)
  else Except.ok (resp.supression.getD [])

/-- Python `set.update`: add each element of `l` not already present, keeping insertion
order. -/
def setUnionList (acc l : List String) : List String :=
  l.foldl (fun a p => if p ∈ a then a else a ++ [p]) acc

/-- `call_blacklist_lookup_batched` (main.py lines 281-285): call the API once per batch,
union the `supression` results; the first failing call raises, discarding everything
accumulated so far.  The external API is a parameter mapping a batch to its response. -/
def call_blacklist_lookup_batched (api : List String → ApiResponse)
    (phoneList : List String) : Except (Nat × String) (List String) :=
  (makeBatches phoneList).foldlM
    (fun acc batch => (call_blacklist_lookup (api batch)).map (setUnionList acc)) []

/-! ### Phone extraction (main.py lines 91-99) -/

/-- The inner loop of phone extraction: for one row, visit each configured phone column;
an index beyond the row is silently skipped; a stripped, non-empty value is added to the
set (modelled as append-if-absent). -/
def phoneRowStep (acc : List String) (row : Row) (phoneIndexes : List Nat) : List String :=
  phoneIndexes.foldl
    (fun a idx =>
      match row.get? idx with
      | none => a
      | some cell =>
        let phone := pyStrip cell
        if phone = "" then a
        else if phone ∈ a then a else a ++ [phone])
    acc

/-- `phone_set`/`phone_list` (main.py lines 92-99): every distinct non-empty stripped
value found in a configured phone column of a data row, once each. -/
def extractPhones (dataRows : List Row) (phoneIndexes : List Nat) : List String :=
  dataRows.foldl (fun acc row => phoneRowStep acc row phoneIndexes) []

/-! ### Per-row blank/retain pass (main.py lines 165-181) -/

/-- One iteration of the phone-column loop (main.py lines 170-181) over the accumulator
`(clean_row, suppressed_row, row_has_suppressed)`.  The loop always reads the cell from
the original row (`row[idx]`), never from the partially updated copies. -/
def rowStep (row : Row) (S : List String) (acc : Row × Row × Bool) (idx : Nat) :
    Row × Row × Bool :=
  match row.get? idx with
  | none => acc
  | some cell =>
    let phoneVal := pyStrip cell
    if phoneVal ∈ S then (acc.1.set idx "", acc.2.1.set idx phoneVal, true)
    else (acc.1, acc.2.1.set idx "", acc.2.2)

/-- The per-row pass (main.py lines 165-181): start from two copies of the row and the
flag `False`, fold the phone-column loop. -/
def processRowPair (row : Row) (phoneIndexes : List Nat) (S : List String) :
    Row × Row × Bool :=
  phoneIndexes.foldl (rowStep row S) (row, row, false)

/-- `row_has_suppressed` for one row. -/
def rowHasSuppressed (row : Row) (phoneIndexes : List Nat) (S : List String) : Bool :=
  (processRowPair row phoneIndexes S).2.2

/-! ### Lead-keyed merge of suppressed rows (main.py lines 184-195) -/

/-- Lookup in the suppressed-rows dictionary (insertion-ordered association list keyed by
the lead id, `row[0]` or `None` for an empty row). -/
def alistLookup (d : List (Option String × Row)) (k : Option String) : Option Row :=
  (d.find? (fun p => decide (p.1 = k))).map Prod.snd

/-- In-place value replacement at a key (Python `dict[k] = v` for an existing key keeps
the key's position). -/
def alistUpdate (d : List (Option String × Row)) (k : Option String) (v : Row) :
    List (Option String × Row) :=
  d.map (fun p => if p.1 = k then (k, v) else p)

/-- One iteration of the merge loop for a duplicate lead (main.py lines 189-192).
Python checks `idx < len(row)` and then reads `existing_row[idx]`; when `idx` is inside
the incoming row but beyond the stored row this read raises `IndexError`, modelled as
`none`.  An empty stored slot is filled from the suppressed row when that value is
non-empty (Python's `and suppressed_row[idx]` truthiness test). -/
def mergeStep (suppRow : Row) (rowLen : Nat) (ex : Row) (idx : Nat) : Option Row :=
  if idx < rowLen then
    match ex.get? idx with
    | none => none
    | some v =>
      if v = "" then
        match suppRow.get? idx with
        | none => none
        | some sv => some (if sv = "" then ex else ex.set idx sv)
      else some ex
  else some ex

/-- The merge loop (main.py lines 189-192) over all configured phone columns. -/
def mergeRow (existing : Row) (suppRow : Row) (rowLen : Nat) (phoneIndexes : List Nat) :
    Option Row :=
  phoneIndexes.foldlM (mergeStep suppRow rowLen) existing

/-- One iteration of the main per-row loop (main.py lines 165-195) over the accumulator
`(clean_rows, suppressed_dict)`: run the blank/retain pass, append the clean row, and
when the row has a suppressed phone either merge it into the stored row for its lead id
or insert it.  A merge that raises `IndexError` aborts the whole pass. -/
def viewStep (phoneIndexes : List Nat) (S : List String)
    (acc : List Row × List (Option String × Row)) (row : Row) :
    Option (List Row × List (Option String × Row)) :=
  let res := processRowPair row phoneIndexes S
  let cleans := acc.1 ++ [res.1]
  if res.2.2 then
    let lead := row.head?
    match alistLookup acc.2 lead with
    | some existing =>
      (mergeRow existing res.2.1 row.length phoneIndexes).map
        (fun merged => (cleans, alistUpdate acc.2 lead merged))
    | none => some (cleans, acc.2 ++ [(lead, res.2.1)])
  else some (cleans, acc.2)

/-- The full per-row loop (main.py lines 154-195): clean rows in input order and the
suppressed dictionary, or `none` when a merge raises `IndexError`. -/
def buildViews (dataRows : List Row) (phoneIndexes : List Nat) (S : List String) :
    Option (List Row × List (Option String × Row)) :=
  dataRows.foldlM (viewStep phoneIndexes S) ([], [])

/-! ### Output row assembly (main.py lines 79-89 and 154-216) -/

/-- The row sequences of the two output CSV files (main.py lines 79-89, 154-216): the
header (when configured and non-empty, since Python's `if header:` treats an empty list
like `None`) followed by the clean rows, and the header followed by the merged
suppressed rows in dictionary insertion order.  `none` models the `IndexError` abort
inside the merge, and the empty-file early return. -/
def processCSV (rows : List Row) (phoneIndexes : List Nat) (S : List String)
    (hasHeader : Bool) : Option (List Row × List Row) :=
  if rows.isEmpty then none
  else
    let header : Row := if hasHeader then rows.headD [] else []
    let dataRows := if hasHeader then rows.tail else rows
    (buildViews dataRows phoneIndexes S).map
      (fun v =>
        (if header.isEmpty then v.1 else header :: v.1,
         if header.isEmpty then v.2.map Prod.snd else header :: v.2.map Prod.snd))

/-! ### CSV rendering (main.py lines 203-216, Python csv.writer defaults) -/

/-- Quote a field the way `csv.writer` (QUOTE_MINIMAL, doublequote) does: wrap in double
quotes, doubling embedded quotes, iff the field contains a comma, a quote, or a line
break. -/
def csvQuoteField (f : String) : String :=
  if f.toList.any (fun c => c = ',' || c = '"' || c = '\r' || c = '\n') then
    "\"" ++ String.mk (f.toList.foldr
      (fun c cs => if c = '"' then '"' :: '"' :: cs else c :: cs) []) ++ "\""
  else f

/-- One CSV line: comma-joined quoted fields plus the default `\r\n` terminator. -/
def csvRenderRow (r : Row) : String :=
  String.intercalate "," (r.map csvQuoteField) ++ "\r\n"

/-- A whole CSV text. -/
def csvRender (rows : List Row) : String := String.join (rows.map csvRenderRow)

/-! ### The pipeline (`process_file_v2`, main.py lines 17-258) -/

/-- The externally visible writes of one run, in program order: the `API_CALLED` status
update (line 113), the clean-file upload (line 133 or 235), the blacklisted-file upload
(line 236), and the terminal `DONE` status update (line 147 or 252). -/
inductive Event where
  | statusApiCalled : Event
  | uploadClean : String → Event
  | uploadBlacklisted : String → Event
  | statusDone : Event
deriving DecidableEq, Repr

/-- What a completed run records: the clean file content, the `blacklistedFilePath`
written to Firestore (empty string when no blacklisted file is produced, line 144), and
the blacklisted file content when one is uploaded. -/
structure Output where
  cleanContent : String
  blacklistedFilePath : String
  blacklistedContent : Option String
deriving DecidableEq, Repr

/-- `os.path.splitext` for a bare file name: split before the last dot that has some
non-dot character earlier in the name; otherwise the extension is empty. -/
def splitext (name : String) : String × String :=
  let cs := name.toList
  match (List.range cs.length).reverse.find?
      (fun i => cs.getD i ' ' == '.' && (cs.take i).any (fun c => c != '.')) with
  | some i => (String.mk (cs.take i), String.mk (cs.drop i))
  | none => (name, "")

/-- `f"\x7bbase_name\x7d_blacklisted\x7bext\x7d"` (main.py line 227). -/
def blacklistedFileName (fileName : String) : String :=
  (splitext fileName).1 ++ "_blacklisted" ++ (splitext fileName).2

/-- `process_file_v2` (main.py lines 17-258) from the point where the CSV bytes are
decoded and parsed: `decoded` is the decoded file content, `rows` its parsed lines,
`api` the external suppression service, and the three booleans stand for the
environment having `OUTPUT_BUCKET` set and for each blob upload succeeding (a failed
upload raises, ending the run).  Returns what the run records (or `none` when it aborts
or raises) together with its write-event trace in program order. -/
def process_file_v2 (decoded : String) (rows : List Row) (phoneIndexes : List Nat)
    (hasHeader : Bool) (api : List String → ApiResponse) (fileId fileName : String)
    (outputBucketSet cleanUploadOk blackUploadOk : Bool) :
    Option Output × List Event :=
  if rows.isEmpty then (none, [])
  else
    let header : Row := if hasHeader then rows.headD [] else []
    let dataRows := if hasHeader then rows.tail else rows
    let phoneList := extractPhones dataRows phoneIndexes
    match call_blacklist_lookup_batched api phoneList with
    | Except.error _ => (none, [])
    | Except.ok suppressedList =>
      if suppressedList.isEmpty then
        if outputBucketSet then
          if cleanUploadOk then
            (some ⟨decoded, "", none⟩,
             [Event.statusApiCalled, Event.uploadClean decoded, Event.statusDone])
          else (none, [Event.statusApiCalled, Event.uploadClean decoded])
        else (none, [Event.statusApiCalled])
      else
        match buildViews dataRows phoneIndexes suppressedList with
        | none => (none, [Event.statusApiCalled])
        | some v =>
          let cleanRows := if header.isEmpty then v.1 else header :: v.1
          let suppRows :=
            if header.isEmpty then v.2.map Prod.snd else header :: v.2.map Prod.snd
          let cleanContent := csvRender cleanRows
          let suppContent := csvRender suppRows
          if outputBucketSet then
            if cleanUploadOk then
              if blackUploadOk then
                (some ⟨cleanContent, fileId ++ "/" ++ blacklistedFileName fileName,
                       some suppContent⟩,
                 [Event.statusApiCalled, Event.uploadClean cleanContent,
                  Event.uploadBlacklisted suppContent, Event.statusDone])
              else
                (none, [Event.statusApiCalled, Event.uploadClean cleanContent,
                        Event.uploadBlacklisted suppContent])
            else (none, [Event.statusApiCalled, Event.uploadClean cleanContent])
          else (none, [Event.statusApiCalled])

/-- A single phone whose serialized payload already exceeds the 1 MiB ceiling on its
own: 1,048,576 copies of `a`. -/
def oversizedPhone : String := String.mk (List.replicate MAX_PAYLOAD_SIZE 'a')

/-! ## Properties of the payload batcher -/

lemma batchStep_eq (acc : List (List String) × List String) (p : String) :
    batchStep acc p =
      if payloadBytes (acc.2 ++ [p]) > MAX_PAYLOAD_SIZE then
        if acc.2.isEmpty then (acc.1, [p]) else (acc.1 ++ [acc.2], [p])
      else (acc.1, acc.2 ++ [p]) := rfl

lemma foldl_batchStep_flatten (l : List String) (batches : List (List String))
    (current : List String) :
    (l.foldl batchStep (batches, current)).1.flatten ++ (l.foldl batchStep (batches, current)).2
      = batches.flatten ++ (current ++ l) := by
  induction l generalizing batches current with
  | nil => simp
  | cons p rest ih =>
    rw [List.foldl_cons, batchStep_eq]
    dsimp only
    split
    · split
      · rename_i hemp
        rw [List.isEmpty_iff] at hemp
        rw [ih, hemp]
        simp
      · rw [ih]
        simp
    · rw [ih]
      simp

/-- C3: the batches produced by `call_blacklist_lookup_batched` concatenate back to the
input phone sequence: every input phone lands in exactly one batch, none is dropped or
duplicated, and the order of the input sequence is preserved. -/
theorem c3_batches_partition_order (phoneList : List String) :
    (makeBatches phoneList).flatten = phoneList := by
  unfold makeBatches
  have h := foldl_batchStep_flatten phoneList [] []
  simp only [List.flatten_nil, List.nil_append] at h
  dsimp only
  split
  · rename_i hemp
    rw [List.isEmpty_iff] at hemp
    rw [hemp] at h
    simpa using h
  · simpa using h

lemma foldl_batchStep_inv (l : List String) (batches : List (List String))
    (current : List String)
    (hb : ∀ b ∈ batches, payloadBytes b ≤ MAX_PAYLOAD_SIZE ∨ b.length = 1)
    (hc : payloadBytes current ≤ MAX_PAYLOAD_SIZE ∨ current.length ≤ 1) :
    (∀ b ∈ (l.foldl batchStep (batches, current)).1,
        payloadBytes b ≤ MAX_PAYLOAD_SIZE ∨ b.length = 1) ∧
    (payloadBytes (l.foldl batchStep (batches, current)).2 ≤ MAX_PAYLOAD_SIZE ∨
        (l.foldl batchStep (batches, current)).2.length ≤ 1) := by
  induction l generalizing batches current with
  | nil => exact ⟨hb, hc⟩
  | cons p rest ih =>
    rw [List.foldl_cons, batchStep_eq]
    dsimp only
    split
    · split
      · exact ih _ _ hb (Or.inr (by simp))
      · rename_i hover hemp
        refine ih _ _ ?_ (Or.inr (by simp))
        intro b hbmem
        rcases List.mem_append.mp hbmem with h | h
        · exact hb b h
        · rw [List.mem_singleton.mp h]
          rcases hc with h' | h'
          · exact Or.inl h'
          · refine Or.inr ?_
            have : current ≠ [] := by
              intro hnil
              exact hemp (by simp [hnil])
            have : 1 ≤ current.length := by
              cases current with
              | nil => exact absurd rfl this
              | cons _ _ => simp
            omega
    · rename_i hover
      exact ih _ _ hb (Or.inl (by omega))

/-- C4 (amended): every batch produced by the batcher either serializes (as the JSON
object with the `phones` key) within the 1,048,576-byte ceiling, or is a singleton batch
whose lone phone is itself oversized — the batcher ships such a phone alone rather than
splitting it. -/
theorem c4_amended_batch_size (phoneList : List String) (b : List String)
    (hb : b ∈ makeBatches phoneList) :
    payloadBytes b ≤ MAX_PAYLOAD_SIZE ∨ b.length = 1 := by
  have h := foldl_batchStep_inv phoneList [] [] (by simp)
      (Or.inl (by norm_num [payloadBytes, MAX_PAYLOAD_SIZE]))
  unfold makeBatches at hb
  dsimp only at hb
  split at hb
  · exact h.1 b hb
  · rename_i hemp
    rcases List.mem_append.mp hb with h' | h'
    · exact h.1 b h'
    · rw [List.mem_singleton.mp h']
      rcases h.2 with h' | h'
      · exact Or.inl h'
      · refine Or.inr ?_
        have hne : (phoneList.foldl batchStep ([], [])).2 ≠ [] := by
          intro hnil
          exact hemp (by simp [hnil])
        have : 1 ≤ (phoneList.foldl batchStep ([], [])).2.length :=
          List.length_pos.mpr hne
        omega

/-- C4 (witness for the amended theorem): a small concrete batch is within the
ceiling. -/
theorem c4_amended_batch_size_witness :
    payloadBytes ["5551234"] ≤ MAX_PAYLOAD_SIZE ∨ (["5551234"] : List String).length = 1 :=
  c4_amended_batch_size ["5551234"] ["5551234"] (by decide)

lemma jsonStrBytes_mk (cs : List Char) :
    jsonStrBytes (String.mk cs) = 2 + (cs.map jsonEscLen).sum := rfl

lemma jsonStrBytes_replicate_a (n : Nat) :
    jsonStrBytes (String.mk (List.replicate n 'a')) = 2 + n := by
  rw [jsonStrBytes_mk, List.map_replicate, show jsonEscLen 'a' = 1 from rfl,
    List.sum_replicate, smul_eq_mul, mul_one]

lemma payloadBytes_single (p : String) : payloadBytes [p] = 14 + jsonStrBytes p := by
  simp [payloadBytes]

lemma payloadBytes_oversizedPhone :
    payloadBytes [oversizedPhone] = MAX_PAYLOAD_SIZE + 16 := by
  rw [payloadBytes_single, show oversizedPhone = String.mk
      (List.replicate MAX_PAYLOAD_SIZE 'a') from rfl, jsonStrBytes_replicate_a]
  omega

/-- C4 (counterexample to the claim as stated): a single phone of 1,048,576 characters
is put in a batch by itself, and that batch's serialized `\x7b"phones": [...]\x7d` payload is
1,048,592 bytes, exceeding the configured 1,048,576-byte ceiling. -/
theorem c4_counterexample :
    makeBatches [oversizedPhone] = [[oversizedPhone]] ∧
    MAX_PAYLOAD_SIZE < payloadBytes [oversizedPhone] := by
  have hp : payloadBytes [oversizedPhone] = MAX_PAYLOAD_SIZE + 16 :=
    payloadBytes_oversizedPhone
  constructor
  · unfold makeBatches
    rw [List.foldl_cons, List.foldl_nil, batchStep_eq]
    simp only [List.nil_append]
    rw [if_pos (show payloadBytes [oversizedPhone] > MAX_PAYLOAD_SIZE by rw [hp]; omega)]
    simp
  · rw [hp]; omega

/-! ## Properties of phone extraction -/

lemma phoneRowStep_mem (row : Row) (idxs : List Nat) (acc : List String) (q : String) :
    q ∈ phoneRowStep acc row idxs ↔
      q ∈ acc ∨ ∃ idx ∈ idxs, ∃ cell, row.get? idx = some cell ∧ pyStrip cell = q ∧ q ≠ "" := by
  unfold phoneRowStep
  induction idxs generalizing acc with
  | nil => simp
  | cons j rest ih =>
    rw [List.foldl_cons]
    simp only [List.mem_cons, exists_eq_or_imp]
    cases hj : row.get? j with
    | none =>
      simp only [hj, reduceCtorEq, false_and, exists_false, false_or]
      rw [ih]
    | some cell =>
      simp only [hj, Option.some.injEq]
      by_cases hq : pyStrip cell = ""
      · rw [if_pos hq, ih]
        constructor
        · tauto
        · rintro (h | ⟨c, rfl, rfl, hne⟩ | h)
          · exact Or.inl h
          · exact absurd hq hne
          · exact Or.inr h
      · rw [if_neg hq]
        by_cases hmem : pyStrip cell ∈ acc
        · rw [if_pos hmem, ih]
          constructor
          · tauto
          · rintro (h | ⟨c, rfl, rfl, hne⟩ | h)
            · exact Or.inl h
            · exact Or.inl hmem
            · exact Or.inr h
        · rw [if_neg hmem, ih]
          simp only [List.mem_append, List.mem_singleton]
          constructor
          · rintro ((h | rfl) | h)
            · exact Or.inl h
            · exact Or.inr (Or.inl ⟨cell, rfl, rfl, hq⟩)
            · exact Or.inr (Or.inr h)
          · rintro (h | ⟨c, rfl, rfl, hne⟩ | h)
            · exact Or.inl (Or.inl h)
            · exact Or.inl (Or.inr rfl)
            · exact Or.inr h

lemma phoneRowStep_nodup (row : Row) (idxs : List Nat) (acc : List String)
    (h : acc.Nodup) : (phoneRowStep acc row idxs).Nodup := by
  unfold phoneRowStep
  induction idxs generalizing acc with
  | nil => exact h
  | cons j rest ih =>
    rw [List.foldl_cons]
    cases hj : row.get? j with
    | none => simp only [hj]; exact ih _ h
    | some cell =>
      simp only [hj]
      by_cases hq : pyStrip cell = ""
      · rw [if_pos hq]; exact ih _ h
      · rw [if_neg hq]
        by_cases hmem : pyStrip cell ∈ acc
        · rw [if_pos hmem]; exact ih _ h
        · rw [if_neg hmem]
          refine ih _ ?_
          rw [List.nodup_append]
          refine ⟨h, List.nodup_singleton _, ?_⟩
          intro a ha hb
          simp only [List.mem_singleton] at hb
          subst hb
          exact hmem ha

lemma extractPhones_mem (dataRows : List Row) (idxs : List Nat) (q : String) :
    q ∈ extractPhones dataRows idxs ↔
      ∃ row ∈ dataRows, ∃ idx ∈ idxs, ∃ cell,
        row.get? idx = some cell ∧ pyStrip cell = q ∧ q ≠ "" := by
  unfold extractPhones
  have main : ∀ (rows : List Row) (acc : List String),
      q ∈ rows.foldl (fun acc row => phoneRowStep acc row idxs) acc ↔
        q ∈ acc ∨ ∃ row ∈ rows, ∃ idx ∈ idxs, ∃ cell,
          row.get? idx = some cell ∧ pyStrip cell = q ∧ q ≠ "" := by
    intro rows
    induction rows with
    | nil => simp
    | cons r rest ih =>
      intro acc
      rw [List.foldl_cons, ih, phoneRowStep_mem, or_assoc]
      constructor
      · rintro (h | h | h)
        · exact Or.inl h
        · obtain ⟨idx, hi, cell, hc, hs, hq⟩ := h
          exact Or.inr ⟨r, List.mem_cons_self r rest, idx, hi, cell, hc, hs, hq⟩
        · obtain ⟨row, hr, hrest⟩ := h
          exact Or.inr ⟨row, List.mem_cons_of_mem _ hr, hrest⟩
      · rintro (h | ⟨row, hr, hrest⟩)
        · exact Or.inl h
        · rcases List.mem_cons.mp hr with rfl | hr'
          · exact Or.inr (Or.inl hrest)
          · exact Or.inr (Or.inr ⟨row, hr', hrest⟩)
  rw [main]
  simp

lemma extractPhones_nodup (dataRows : List Row) (idxs : List Nat) :
    (extractPhones dataRows idxs).Nodup := by
  unfold extractPhones
  have main : ∀ (rows : List Row) (acc : List String), acc.Nodup →
      (rows.foldl (fun acc row => phoneRowStep acc row idxs) acc).Nodup := by
    intro rows
    induction rows with
    | nil => exact fun _ h => h
    | cons r rest ih =>
      intro acc hacc
      rw [List.foldl_cons]
      exact ih _ (phoneRowStep_nodup r idxs acc hacc)
  exact main dataRows [] (List.nodup_nil)

/-- C7: the phones submitted to the API are exactly the distinct non-empty stripped
values found in a configured phone column of a data row — each exactly once, regardless
of which row or column it came from, and a configured index beyond a row's length
contributes nothing for that row (the characterization only admits in-range cells). -/
theorem c7_extracted_phone_set (dataRows : List Row) (phoneIndexes : List Nat) :
    (extractPhones dataRows phoneIndexes).Nodup ∧
    ∀ q, q ∈ extractPhones dataRows phoneIndexes ↔
      ∃ row ∈ dataRows, ∃ idx ∈ phoneIndexes, ∃ cell,
        row.get? idx = some cell ∧ pyStrip cell = q ∧ q ≠ "" :=
  ⟨extractPhones_nodup dataRows phoneIndexes,
   fun q => extractPhones_mem dataRows phoneIndexes q⟩

/-! ## Properties of the per-row blank/retain pass -/

lemma rowStep_fst (row : Row) (S : List String) (acc : Row × Row × Bool) (j : Nat) :
    (rowStep row S acc j).1 =
      if ∃ cell, row.get? j = some cell ∧ pyStrip cell ∈ S then acc.1.set j ""
      else acc.1 := by
  unfold rowStep
  cases hj : row.get? j with
  | none => simp [hj]
  | some cell =>
    by_cases hs : pyStrip cell ∈ S
    · simp [hj, hs]
    · simp [hj, hs]

lemma rowStep_snd (row : Row) (S : List String) (acc : Row × Row × Bool) (j : Nat) :
    (rowStep row S acc j).2.1 =
      match row.get? j with
      | none => acc.2.1
      | some cell => acc.2.1.set j (if pyStrip cell ∈ S then pyStrip cell else "") := by
  unfold rowStep
  cases hj : row.get? j with
  | none => simp [hj]
  | some cell =>
    by_cases hs : pyStrip cell ∈ S
    · simp [hj, hs]
    · simp [hj, hs]

lemma rowStep_flag (row : Row) (S : List String) (acc : Row × Row × Bool) (j : Nat) :
    (rowStep row S acc j).2.2 =
      (acc.2.2 || match row.get? j with
        | none => false
        | some cell => decide (pyStrip cell ∈ S)) := by
  unfold rowStep
  cases hj : row.get? j with
  | none => simp [hj]
  | some cell =>
    by_cases hs : pyStrip cell ∈ S
    · simp [hj, hs]
    · simp [hj, hs]

lemma rowStep_fst_length (row : Row) (S : List String) (acc : Row × Row × Bool) (j : Nat) :
    (rowStep row S acc j).1.length = acc.1.length := by
  rw [rowStep_fst]
  split <;> simp

lemma rowStep_snd_length (row : Row) (S : List String) (acc : Row × Row × Bool) (j : Nat) :
    (rowStep row S acc j).2.1.length = acc.2.1.length := by
  rw [rowStep_snd]
  cases row.get? j <;> simp

lemma foldl_rowStep_fst_length (row : Row) (S : List String) (idxs : List Nat)
    (acc : Row × Row × Bool) :
    (idxs.foldl (rowStep row S) acc).1.length = acc.1.length := by
  induction idxs generalizing acc with
  | nil => rfl
  | cons j rest ih => rw [List.foldl_cons, ih, rowStep_fst_length]

lemma foldl_rowStep_snd_length (row : Row) (S : List String) (idxs : List Nat)
    (acc : Row × Row × Bool) :
    (idxs.foldl (rowStep row S) acc).2.1.length = acc.2.1.length := by
  induction idxs generalizing acc with
  | nil => rfl
  | cons j rest ih => rw [List.foldl_cons, ih, rowStep_snd_length]

lemma foldl_rowStep_fst_get (row : Row) (S : List String) (idxs : List Nat)
    (acc : Row × Row × Bool) (i : Nat) (hlen : acc.1.length = row.length) :
    (idxs.foldl (rowStep row S) acc).1.get? i =
      if i ∈ idxs ∧ ∃ cell, row.get? i = some cell ∧ pyStrip cell ∈ S then some ""
      else acc.1.get? i := by
  induction idxs generalizing acc with
  | nil => simp
  | cons j rest ih =>
    rw [List.foldl_cons, ih _ (by rw [rowStep_fst_length]; exact hlen)]
    by_cases hir : i ∈ rest ∧ ∃ cell, row.get? i = some cell ∧ pyStrip cell ∈ S
    · rw [if_pos hir, if_pos ⟨List.mem_cons_of_mem _ hir.1, hir.2⟩]
    · rw [if_neg hir, rowStep_fst]
      by_cases hij : i = j
      · subst hij
        by_cases hs : ∃ cell, row.get? i = some cell ∧ pyStrip cell ∈ S
        · rw [if_pos hs, if_pos ⟨List.mem_cons_self _ _, hs⟩]
          obtain ⟨cell, hc, _⟩ := hs
          have hi : i < acc.1.length := by
            rw [hlen]
            exact (List.get?_eq_some.mp hc).1
          exact List.get?_set_eq_of_lt _ hi
        · rw [if_neg hs, if_neg (fun h => hs h.2)]
      · have hmain : ¬(i ∈ j :: rest ∧ ∃ cell, row.get? i = some cell ∧ pyStrip cell ∈ S) := by
          rintro ⟨hmem, hs⟩
          rcases List.mem_cons.mp hmem with rfl | hmem'
          · exact hij rfl
          · exact hir ⟨hmem', hs⟩
        rw [if_neg hmain]
        split
        · exact List.get?_set_ne _ _ (fun h => hij h.symm)
        · rfl

lemma foldl_rowStep_snd_get (row : Row) (S : List String) (idxs : List Nat)
    (acc : Row × Row × Bool) (i : Nat) (hlen : acc.2.1.length = row.length) :
    (idxs.foldl (rowStep row S) acc).2.1.get? i =
      if i ∈ idxs ∧ i < row.length then
        (row.get? i).map (fun cell => if pyStrip cell ∈ S then pyStrip cell else "")
      else acc.2.1.get? i := by
  induction idxs generalizing acc with
  | nil => simp
  | cons j rest ih =>
    rw [List.foldl_cons, ih _ (by rw [rowStep_snd_length]; exact hlen)]
    by_cases hir : i ∈ rest ∧ i < row.length
    · rw [if_pos hir, if_pos ⟨List.mem_cons_of_mem _ hir.1, hir.2⟩]
    · rw [if_neg hir, rowStep_snd]
      by_cases hij : i = j
      · subst hij
        cases hc : row.get? i with
        | none =>
          have hge : row.length ≤ i := List.get?_eq_none.mp hc
          rw [if_neg (fun h => absurd h.2 (by omega))]
        | some cell =>
          have hlt : i < row.length := (List.get?_eq_some.mp hc).1
          rw [if_pos ⟨List.mem_cons_self _ _, hlt⟩]
          have hi : i < acc.2.1.length := by rw [hlen]; exact hlt
          dsimp only
          rw [Option.map_some']
          exact List.get?_set_eq_of_lt _ hi
      · have hmain : ¬(i ∈ j :: rest ∧ i < row.length) := by
          rintro ⟨hmem, hs⟩
          rcases List.mem_cons.mp hmem with rfl | hmem'
          · exact hij rfl
          · exact hir ⟨hmem', hs⟩
        rw [if_neg hmain]
        cases row.get? j with
        | none => rfl
        | some cell => exact List.get?_set_ne _ _ (fun h => hij h.symm)

lemma foldl_rowStep_flag (row : Row) (S : List String) (idxs : List Nat)
    (acc : Row × Row × Bool) :
    (idxs.foldl (rowStep row S) acc).2.2 =
      (acc.2.2 || idxs.any (fun j =>
        match row.get? j with
        | none => false
        | some cell => decide (pyStrip cell ∈ S))) := by
  induction idxs generalizing acc with
  | nil => simp
  | cons j rest ih =>
    rw [List.foldl_cons, ih, rowStep_flag, List.any_cons, Bool.or_assoc]

lemma processRowPair_fst_get (row : Row) (idxs : List Nat) (S : List String) (i : Nat) :
    ((processRowPair row idxs S).1).get? i =
      if i ∈ idxs ∧ ∃ cell, row.get? i = some cell ∧ pyStrip cell ∈ S then some ""
      else row.get? i := by
  unfold processRowPair
  exact foldl_rowStep_fst_get row S idxs (row, row, false) i rfl

lemma processRowPair_snd_get (row : Row) (idxs : List Nat) (S : List String) (i : Nat) :
    ((processRowPair row idxs S).2.1).get? i =
      if i ∈ idxs ∧ i < row.length then
        (row.get? i).map (fun cell => if pyStrip cell ∈ S then pyStrip cell else "")
      else row.get? i := by
  unfold processRowPair
  exact foldl_rowStep_snd_get row S idxs (row, row, false) i rfl

lemma processRowPair_flag (row : Row) (idxs : List Nat) (S : List String) :
    (processRowPair row idxs S).2.2 =
      idxs.any (fun j =>
        match row.get? j with
        | none => false
        | some cell => decide (pyStrip cell ∈ S)) := by
  unfold processRowPair
  rw [foldl_rowStep_flag]
  rfl

lemma processRowPair_fst_length (row : Row) (idxs : List Nat) (S : List String) :
    (processRowPair row idxs S).1.length = row.length :=
  foldl_rowStep_fst_length row S idxs (row, row, false)

lemma processRowPair_snd_length (row : Row) (idxs : List Nat) (S : List String) :
    (processRowPair row idxs S).2.1.length = row.length :=
  foldl_rowStep_snd_length row S idxs (row, row, false)

/-- C1: for every row, phone-column index list and suppressed set, a phone cell (an
in-range cell of a configured phone column whose stripped value is a phone, i.e.
non-empty) is non-blank in the clean row iff its stripped value is not suppressed, is
non-blank in the blacklisted (suppressed) row iff its stripped value is suppressed, and
is never non-blank in both. -/
theorem c1_clean_blacklist_complement (row : Row) (phoneIndexes : List Nat)
    (S : List String) (i : Nat) (cell : String)
    (hmem : i ∈ phoneIndexes) (hcell : row.get? i = some cell)
    (hne : pyStrip cell ≠ "") :
    ((∃ v, ((processRowPair row phoneIndexes S).1).get? i = some v ∧ v ≠ "") ↔
        pyStrip cell ∉ S) ∧
    ((∃ v, ((processRowPair row phoneIndexes S).2.1).get? i = some v ∧ v ≠ "") ↔
        pyStrip cell ∈ S) ∧
    ¬((∃ v, ((processRowPair row phoneIndexes S).1).get? i = some v ∧ v ≠ "") ∧
      (∃ v, ((processRowPair row phoneIndexes S).2.1).get? i = some v ∧ v ≠ "")) := by
  have hlt : i < row.length := (List.get?_eq_some.mp hcell).1
  have hclean := processRowPair_fst_get row phoneIndexes S i
  have hsupp := processRowPair_snd_get row phoneIndexes S i
  rw [if_pos ⟨hmem, hlt⟩, hcell, Option.map_some'] at hsupp
  by_cases hs : pyStrip cell ∈ S
  · rw [if_pos ⟨hmem, cell, hcell, hs⟩] at hclean
    rw [if_pos hs] at hsupp
    refine ⟨?_, ?_, ?_⟩
    · rw [hclean]
      simp [hs]
    · rw [hsupp]
      exact ⟨fun _ => hs, fun _ => ⟨pyStrip cell, rfl, hne⟩⟩
    · rw [hclean]
      simp
  · have hnot : ¬(i ∈ phoneIndexes ∧ ∃ c, row.get? i = some c ∧ pyStrip c ∈ S) := by
      rintro ⟨-, c, hc, hcs⟩
      rw [hcell] at hc
      injection hc with h
      subst h
      exact hs hcs
    rw [if_neg hnot, hcell] at hclean
    rw [if_neg hs] at hsupp
    have hcellne : cell ≠ "" := fun h => hne (by rw [h]; rfl)
    refine ⟨?_, ?_, ?_⟩
    · rw [hclean]
      exact ⟨fun _ => hs, fun _ => ⟨cell, rfl, hcellne⟩⟩
    · rw [hsupp]
      simp [hs]
    · rw [hsupp]
      rintro ⟨-, v, hv, hvne⟩
      injection hv with h
      exact hvne h.symm

/-- C1 witness: the concrete row `["a", "p"]` with phone column 1 and suppressed set
`\x7b"p"\x7d`. -/
theorem c1_clean_blacklist_complement_witness :
    ((∃ v, ((processRowPair ["a", "p"] [1] ["p"]).1).get? 1 = some v ∧ v ≠ "") ↔
        pyStrip "p" ∉ ["p"]) ∧
    ((∃ v, ((processRowPair ["a", "p"] [1] ["p"]).2.1).get? 1 = some v ∧ v ≠ "") ↔
        pyStrip "p" ∈ ["p"]) ∧
    ¬((∃ v, ((processRowPair ["a", "p"] [1] ["p"]).1).get? 1 = some v ∧ v ≠ "") ∧
      (∃ v, ((processRowPair ["a", "p"] [1] ["p"]).2.1).get? 1 = some v ∧ v ≠ "")) :=
  c1_clean_blacklist_complement ["a", "p"] [1] ["p"] 1 "p" (by decide) rfl (by decide)

/-! ## Properties of the lead-keyed merge -/

lemma mergeStep_length (suppRow : Row) (rowLen : Nat) (ex : Row) (idx : Nat) (ex' : Row)
    (h : mergeStep suppRow rowLen ex idx = some ex') : ex'.length = ex.length := by
  unfold mergeStep at h
  split at h
  · split at h
    · exact Option.noConfusion h
    · split at h
      · split at h
        · exact Option.noConfusion h
        · injection h with h'
          subst h'
          split <;> simp
      · injection h with h'
        subst h'
        rfl
  · injection h with h'
    subst h'
    rfl

lemma mergeStep_preserve (suppRow : Row) (rowLen : Nat) (ex : Row) (idx : Nat) (ex' : Row)
    (h : mergeStep suppRow rowLen ex idx = some ex') (i : Nat) (v : String)
    (hv : ex.get? i = some v) (hne : v ≠ "") : ex'.get? i = some v := by
  unfold mergeStep at h
  split at h
  · split at h
    · exact Option.noConfusion h
    · rename_i v0 hg
      split at h
      · rename_i hv0
        split at h
        · exact Option.noConfusion h
        · rename_i sv hs
          injection h with h'
          subst h'
          split
          · exact hv
          · have hii : idx ≠ i := by
              intro hEq
              subst hEq
              rw [hg] at hv
              injection hv with h2
              subst hv0
              exact hne h2.symm
            rw [List.get?_set_ne _ _ hii]
            exact hv
      · injection h with h'
        subst h'
        exact hv
  · injection h with h'
    subst h'
    exact hv

lemma mergeRow_length (existing suppRow : Row) (rowLen : Nat) (idxs : List Nat) (ex' : Row)
    (h : mergeRow existing suppRow rowLen idxs = some ex') : ex'.length = existing.length := by
  unfold mergeRow at h
  induction idxs generalizing existing with
  | nil =>
    rw [List.foldlM_nil] at h
    injection h with h'
    subst h'
    rfl
  | cons j rest ih =>
    rw [List.foldlM_cons] at h
    cases hstep : mergeStep suppRow rowLen existing j with
    | none =>
      rw [hstep] at h
      exact Option.noConfusion h
    | some ex1 =>
      rw [hstep] at h
      rw [ih ex1 h]
      exact mergeStep_length suppRow rowLen existing j ex1 hstep

/-- The merge never loses a previously filled cell: a non-empty stored cell survives
unchanged. -/
lemma mergeRow_preserve (existing suppRow : Row) (rowLen : Nat) (idxs : List Nat)
    (ex' : Row) (h : mergeRow existing suppRow rowLen idxs = some ex') (i : Nat)
    (v : String) (hv : existing.get? i = some v) (hne : v ≠ "") : ex'.get? i = some v := by
  unfold mergeRow at h
  induction idxs generalizing existing with
  | nil =>
    rw [List.foldlM_nil] at h
    injection h with h'
    subst h'
    exact hv
  | cons j rest ih =>
    rw [List.foldlM_cons] at h
    cases hstep : mergeStep suppRow rowLen existing j with
    | none =>
      rw [hstep] at h
      exact Option.noConfusion h
    | some ex1 =>
      rw [hstep] at h
      exact ih ex1 h (mergeStep_preserve suppRow rowLen existing j ex1 hstep i v hv hne)

lemma mergeStep_get_ne (suppRow : Row) (rowLen : Nat) (ex : Row) (idx : Nat) (ex1 : Row)
    (h : mergeStep suppRow rowLen ex idx = some ex1) (i : Nat) (hne : idx ≠ i) :
    ex1.get? i = ex.get? i := by
  unfold mergeStep at h
  split at h
  · split at h
    · exact Option.noConfusion h
    · split at h
      · split at h
        · exact Option.noConfusion h
        · injection h with h'
          subst h'
          split
          · rfl
          · exact List.get?_set_ne _ _ hne
      · injection h with h'
        subst h'
        rfl
  · injection h with h'
    subst h'
    rfl

lemma mergeStep_fill (suppRow : Row) (rowLen : Nat) (ex : Row) (idx : Nat) (ex1 : Row)
    (h : mergeStep suppRow rowLen ex idx = some ex1) (hlt : idx < rowLen)
    (hempty : ex.get? idx = some "") (sv : String) (hs : suppRow.get? idx = some sv)
    (hsne : sv ≠ "") : ex1 = ex.set idx sv := by
  unfold mergeStep at h
  rw [if_pos hlt, hempty] at h
  dsimp only at h
  rw [if_pos rfl, hs] at h
  dsimp only at h
  rw [if_neg hsne] at h
  injection h with h'
  exact h'.symm

/-- The merge fills an empty stored slot with the incoming suppressed row's non-empty
value at that phone column: the first non-empty value encountered wins. -/
lemma mergeRow_fill (suppRow : Row) (rowLen : Nat) (idxs : List Nat) (i : Nat)
    (hlt : i < rowLen) (sv : String) (hs : suppRow.get? i = some sv) (hsne : sv ≠ "") :
    ∀ existing merged : Row,
      mergeRow existing suppRow rowLen idxs = some merged →
      i ∈ idxs → existing.get? i = some "" → merged.get? i = some sv := by
  unfold mergeRow
  induction idxs with
  | nil =>
    intro ex merged _ hi _
    exact absurd hi (List.not_mem_nil i)
  | cons j rest ih =>
    intro ex merged h hi hempty
    rw [List.foldlM_cons] at h
    cases hstep : mergeStep suppRow rowLen ex j with
    | none =>
      rw [hstep] at h
      exact Option.noConfusion h
    | some ex1 =>
      rw [hstep] at h
      by_cases hij : j = i
      · subst hij
        have hex1 : ex1 = ex.set j sv :=
          mergeStep_fill suppRow rowLen ex j ex1 hstep hlt hempty sv hs hsne
        have hx : ex1.get? j = some sv := by
          rw [hex1]
          exact List.get?_set_eq_of_lt _ (List.get?_eq_some.mp hempty).1
        exact mergeRow_preserve ex1 suppRow rowLen rest merged h j sv hx hsne
      · rcases List.mem_cons.mp hi with heq | hrest
        · exact absurd heq.symm hij
        · refine ih ex1 merged h hrest ?_
          rw [mergeStep_get_ne suppRow rowLen ex j ex1 hstep i hij]
          exact hempty

/-! ## Properties of the suppressed-rows dictionary -/

lemma alistUpdate_keys (d : List (Option String × Row)) (k : Option String) (v : Row) :
    (alistUpdate d k v).map Prod.fst = d.map Prod.fst := by
  unfold alistUpdate
  induction d with
  | nil => rfl
  | cons p rest ih =>
    simp only [List.map_cons, ih]
    congr 1
    split
    · rename_i h
      exact h.symm
    · rfl

lemma alistUpdate_forall {P : Row → Prop} (d : List (Option String × Row))
    (k : Option String) (v : Row) (hd : ∀ p ∈ d, P p.2) (hv : P v) :
    ∀ p ∈ alistUpdate d k v, P p.2 := by
  intro p hp
  unfold alistUpdate at hp
  obtain ⟨q, hq, hpq⟩ := List.mem_map.mp hp
  by_cases h : q.1 = k
  · rw [if_pos h] at hpq
    rw [← hpq]
    exact hv
  · rw [if_neg h] at hpq
    rw [← hpq]
    exact hd q hq

lemma alistLookup_none (d : List (Option String × Row)) (k : Option String) :
    alistLookup d k = none ↔ k ∉ d.map Prod.fst := by
  unfold alistLookup
  rw [Option.map_eq_none', List.find?_eq_none]
  simp only [List.mem_map, decide_eq_true_eq, not_exists, not_and]

lemma alistLookup_some (d : List (Option String × Row)) (k : Option String) (ex : Row)
    (h : alistLookup d k = some ex) : ∃ p ∈ d, p.1 = k ∧ p.2 = ex := by
  unfold alistLookup at h
  cases hf : d.find? (fun p => decide (p.1 = k)) with
  | none =>
    rw [hf] at h
    exact Option.noConfusion h
  | some p =>
    rw [hf] at h
    injection h with h'
    exact ⟨p, List.mem_of_find?_eq_some hf, by simpa using List.find?_some hf, h'⟩

/-! ## Properties of the main per-row loop -/

lemma viewStep_keys (idxs : List Nat) (S : List String)
    (acc : List Row × List (Option String × Row)) (row : Row)
    (acc1 : List Row × List (Option String × Row))
    (h : viewStep idxs S acc row = some acc1) :
    (rowHasSuppressed row idxs S = false ∧ acc1.2 = acc.2) ∨
    (rowHasSuppressed row idxs S = true ∧ row.head? ∈ acc.2.map Prod.fst ∧
      acc1.2.map Prod.fst = acc.2.map Prod.fst) ∨
    (rowHasSuppressed row idxs S = true ∧ row.head? ∉ acc.2.map Prod.fst ∧
      acc1.2 = acc.2 ++ [(row.head?, (processRowPair row idxs S).2.1)]) := by
  unfold viewStep at h
  dsimp only at h
  unfold rowHasSuppressed
  split at h
  · rename_i hflag
    split at h
    · rename_i existing hlook
      rw [Option.map_eq_some'] at h
      obtain ⟨merged, _, hmap⟩ := h
      subst hmap
      refine Or.inr (Or.inl ⟨hflag, ?_, ?_⟩)
      · obtain ⟨p, hp, hpk, -⟩ := alistLookup_some acc.2 row.head? existing hlook
        exact List.mem_map.mpr ⟨p, hp, hpk⟩
      · exact alistUpdate_keys acc.2 row.head? merged
    · rename_i hlook
      injection h with h'
      subst h'
      exact Or.inr (Or.inr ⟨hflag, (alistLookup_none acc.2 row.head?).mp hlook, rfl⟩)
  · rename_i hflag
    injection h with h'
    subst h'
    exact Or.inl ⟨Bool.not_eq_true _ ▸ eq_false_of_ne_true hflag, rfl⟩

lemma foldlM_viewStep_keys (idxs : List Nat) (S : List String) (rows : List Row) :
    ∀ acc res : List Row × List (Option String × Row),
      rows.foldlM (viewStep idxs S) acc = some res →
      (acc.2.map Prod.fst).Nodup →
      (res.2.map Prod.fst).Nodup ∧
        ∀ k, k ∈ res.2.map Prod.fst ↔
          (k ∈ acc.2.map Prod.fst ∨
            ∃ row ∈ rows, rowHasSuppressed row idxs S = true ∧ row.head? = k) := by
  induction rows with
  | nil =>
    intro acc res h hnd
    rw [List.foldlM_nil] at h
    injection h with h'
    subst h'
    simp [hnd]
  | cons row rest ih =>
    intro acc res h hnd
    rw [List.foldlM_cons] at h
    cases hstep : viewStep idxs S acc row with
    | none =>
      rw [hstep] at h
      exact Option.noConfusion h
    | some acc1 =>
      rw [hstep] at h
      rcases viewStep_keys idxs S acc row acc1 hstep with
        ⟨hflag, hkeys⟩ | ⟨hflag, hmem, hkeys⟩ | ⟨hflag, hmem, hkeys⟩
      · obtain ⟨hnd', hiff⟩ := ih acc1 res h (by rw [hkeys]; exact hnd)
        refine ⟨hnd', fun k => (hiff k).trans ?_⟩
        rw [hkeys]
        simp only [List.mem_cons]
        constructor
        · rintro (hk | ⟨r, hr, hsupp, hk⟩)
          · exact Or.inl hk
          · exact Or.inr ⟨r, Or.inr hr, hsupp, hk⟩
        · rintro (hk | ⟨r, hr | hr, hsupp, hk⟩)
          · exact Or.inl hk
          · subst hr
            rw [hflag] at hsupp
            exact Bool.noConfusion hsupp
          · exact Or.inr ⟨r, hr, hsupp, hk⟩
      · obtain ⟨hnd', hiff⟩ := ih acc1 res h (by rw [hkeys]; exact hnd)
        refine ⟨hnd', fun k => (hiff k).trans ?_⟩
        rw [hkeys]
        simp only [List.mem_cons]
        constructor
        · rintro (hk | ⟨r, hr, hsupp, hk⟩)
          · exact Or.inl hk
          · exact Or.inr ⟨r, Or.inr hr, hsupp, hk⟩
        · rintro (hk | ⟨r, hr | hr, hsupp, hk⟩)
          · exact Or.inl hk
          · subst hr
            subst hk
            exact Or.inl hmem
          · exact Or.inr ⟨r, hr, hsupp, hk⟩
      · have hnd1 : (acc1.2.map Prod.fst).Nodup := by
          rw [hkeys, List.map_append, List.nodup_append]
          refine ⟨hnd, by simp, ?_⟩
          intro a ha hb
          simp only [List.map_cons, List.map_nil, List.mem_singleton] at hb
          subst hb
          exact hmem ha
        obtain ⟨hnd', hiff⟩ := ih acc1 res h hnd1
        refine ⟨hnd', fun k => (hiff k).trans ?_⟩
        rw [hkeys, List.map_append]
        simp only [List.mem_append, List.map_cons, List.map_nil, List.mem_singleton,
          List.mem_cons, List.not_mem_nil, or_false]
        constructor
        · rintro ((hk | hk) | ⟨r, hr, hsupp, hk⟩)
          · exact Or.inl hk
          · subst hk
            exact Or.inr ⟨row, Or.inl rfl, hflag, rfl⟩
          · exact Or.inr ⟨r, Or.inr hr, hsupp, hk⟩
        · rintro (hk | ⟨r, hr | hr, hsupp, hk⟩)
          · exact Or.inl (Or.inl hk)
          · subst hr
            exact Or.inl (Or.inr hk.symm)
          · exact Or.inr ⟨r, hr, hsupp, hk⟩

/-- C2: whenever the per-row loop completes, the blacklisted dictionary holds exactly one
row per distinct column-0 lead identity among the rows that have at least one suppressed
phone; and merging a later row into the stored row for the same lead follows the
first-non-empty-wins column-wise policy over the phone columns: an already-filled cell
is never overwritten or lost, and an empty stored phone slot is filled with the later
row's non-empty value at that column. -/
theorem c2_blacklist_one_row_per_lead_monotonic (dataRows : List Row)
    (phoneIndexes : List Nat) (S : List String) (cs : List Row)
    (dict : List (Option String × Row))
    (h : buildViews dataRows phoneIndexes S = some (cs, dict)) :
    ((dict.map Prod.fst).Nodup ∧
      ∀ k, k ∈ dict.map Prod.fst ↔
        ∃ row ∈ dataRows, rowHasSuppressed row phoneIndexes S = true ∧ row.head? = k) ∧
    (∀ (existing suppRow : Row) (rowLen : Nat) (idxs : List Nat) (merged : Row),
      mergeRow existing suppRow rowLen idxs = some merged →
      ∀ (i : Nat) (v : String), existing.get? i = some v → v ≠ "" →
        merged.get? i = some v) ∧
    (∀ (existing suppRow : Row) (rowLen : Nat) (idxs : List Nat) (merged : Row),
      mergeRow existing suppRow rowLen idxs = some merged →
      ∀ i ∈ idxs, i < rowLen → existing.get? i = some "" →
        ∀ sv : String, suppRow.get? i = some sv → sv ≠ "" →
          merged.get? i = some sv) := by
  refine ⟨?_, ?_, ?_⟩
  · have hmain := foldlM_viewStep_keys phoneIndexes S dataRows ([], []) (cs, dict) h
      (by simp)
    obtain ⟨hnd, hiff⟩ := hmain
    refine ⟨hnd, fun k => (hiff k).trans ?_⟩
    simp
  · intro existing suppRow rowLen idxs merged hmerge i v hv hne
    exact mergeRow_preserve existing suppRow rowLen idxs merged hmerge i v hv hne
  · intro existing suppRow rowLen idxs merged hmerge i hi hlt hempty sv hs hsne
    exact mergeRow_fill suppRow rowLen idxs i hlt sv hs hsne existing merged hmerge hi
      hempty

/-- C2 witness: two data rows for the same lead `"L"`; the second row's phone `"p2"`
fills the empty slot of the stored row while the stored `"p1"` survives, yielding the
single merged dictionary row `["L", "p1", "p2"]`. -/
theorem c2_blacklist_one_row_per_lead_monotonic_witness :
    ((([(some "L", ["L", "p1", "p2"])] : List (Option String × Row)).map Prod.fst).Nodup ∧
      ∀ k, k ∈ ([(some "L", ["L", "p1", "p2"])] : List (Option String × Row)).map
          Prod.fst ↔
        ∃ row ∈ [["L", "p1", ""], ["L", "", "p2"]],
          rowHasSuppressed row [1, 2] ["p1", "p2"] = true ∧ row.head? = k) ∧
    (∀ (existing suppRow : Row) (rowLen : Nat) (idxs : List Nat) (merged : Row),
      mergeRow existing suppRow rowLen idxs = some merged →
      ∀ (i : Nat) (v : String), existing.get? i = some v → v ≠ "" →
        merged.get? i = some v) ∧
    (∀ (existing suppRow : Row) (rowLen : Nat) (idxs : List Nat) (merged : Row),
      mergeRow existing suppRow rowLen idxs = some merged →
      ∀ i ∈ idxs, i < rowLen → existing.get? i = some "" →
        ∀ sv : String, suppRow.get? i = some sv → sv ≠ "" →
          merged.get? i = some sv) :=
  c2_blacklist_one_row_per_lead_monotonic [["L", "p1", ""], ["L", "", "p2"]] [1, 2]
    ["p1", "p2"] [["L", "", ""], ["L", "", ""]] [(some "L", ["L", "p1", "p2"])] (by rfl)

/-- C10 (the slip in the merge guard): the per-row loop is not total.  With phone columns
1 and 2, suppressed set `\x7b"p"\x7d`, and rows `["L", "p"]` then `["L", "", "p"]`, the merge
for lead `"L"` checks index 2 against the incoming row's length (3) but then reads the
stored row (length 2) at index 2 — an `IndexError`, modelled as `none`. -/
theorem c10_merge_index_error :
    buildViews [["L", "p"], ["L", "", "p"]] [1, 2] ["p"] = none := by rfl

/-! ## Column counts of the emitted rows -/

lemma viewStep_lengths (idxs : List Nat) (S : List String)
    (acc : List Row × List (Option String × Row)) (row : Row)
    (acc1 : List Row × List (Option String × Row)) (n : Nat)
    (h : viewStep idxs S acc row = some acc1)
    (hrow : row.length = n)
    (hclean : ∀ r ∈ acc.1, r.length = n)
    (hdict : ∀ p ∈ acc.2, p.2.length = n) :
    (∀ r ∈ acc1.1, r.length = n) ∧ (∀ p ∈ acc1.2, p.2.length = n) := by
  unfold viewStep at h
  dsimp only at h
  have hcl : ∀ r ∈ acc.1 ++ [(processRowPair row idxs S).1], r.length = n := by
    intro r hr
    rcases List.mem_append.mp hr with hr | hr
    · exact hclean r hr
    · rw [List.mem_singleton.mp hr, processRowPair_fst_length, hrow]
  split at h
  · split at h
    · rename_i existing hlook
      rw [Option.map_eq_some'] at h
      obtain ⟨merged, hmerge, hmap⟩ := h
      subst hmap
      refine ⟨hcl, ?_⟩
      refine alistUpdate_forall (P := fun r => r.length = n) acc.2 row.head? merged hdict ?_
      obtain ⟨p, hp, -, hpv⟩ := alistLookup_some acc.2 row.head? existing hlook
      rw [mergeRow_length existing _ _ _ merged hmerge, ← hpv]
      exact hdict p hp
    · injection h with h'
      subst h'
      refine ⟨hcl, ?_⟩
      intro p hp
      rcases List.mem_append.mp hp with hp | hp
      · exact hdict p hp
      · rw [List.mem_singleton.mp hp]
        dsimp only
        rw [processRowPair_snd_length, hrow]
  · injection h with h'
    subst h'
    exact ⟨hcl, hdict⟩

lemma foldlM_viewStep_lengths (idxs : List Nat) (S : List String) (n : Nat)
    (rows : List Row) :
    ∀ acc res : List Row × List (Option String × Row),
      rows.foldlM (viewStep idxs S) acc = some res →
      (∀ r ∈ rows, r.length = n) →
      (∀ r ∈ acc.1, r.length = n) → (∀ p ∈ acc.2, p.2.length = n) →
      (∀ r ∈ res.1, r.length = n) ∧ (∀ p ∈ res.2, p.2.length = n) := by
  induction rows with
  | nil =>
    intro acc res h _ h1 h2
    rw [List.foldlM_nil] at h
    injection h with h'
    subst h'
    exact ⟨h1, h2⟩
  | cons row rest ih =>
    intro acc res h hrows h1 h2
    rw [List.foldlM_cons] at h
    cases hstep : viewStep idxs S acc row with
    | none =>
      rw [hstep] at h
      exact Option.noConfusion h
    | some acc1 =>
      rw [hstep] at h
      obtain ⟨g1, g2⟩ := viewStep_lengths idxs S acc row acc1 n hstep
        (hrows row (List.mem_cons_self _ _)) h1 h2
      exact ih acc1 res h (fun r hr => hrows r (List.mem_cons_of_mem _ hr)) g1 g2

/-- C8 (amended): when every data row has the header's column count, every row emitted
into the clean file and the blacklisted file (header included) has the header's column
count.  (The component itself does not pad short rows, so the guarantee needs the
rectangular-input hypothesis.) -/
theorem c8_amended_column_counts (hrow : Row) (dataRows : List Row)
    (phoneIndexes : List Nat) (S : List String) (cls sps : List Row)
    (hrect : ∀ r ∈ dataRows, r.length = hrow.length)
    (hres : processCSV (hrow :: dataRows) phoneIndexes S true = some (cls, sps)) :
    (∀ r ∈ cls, r.length = hrow.length) ∧ (∀ r ∈ sps, r.length = hrow.length) := by
  unfold processCSV at hres
  rw [if_neg (by simp)] at hres
  dsimp only at hres
  simp only [if_true, List.headD_cons, List.tail_cons] at hres
  cases hb : buildViews dataRows phoneIndexes S with
  | none =>
    rw [hb] at hres
    exact Option.noConfusion hres
  | some v =>
    rw [hb] at hres
    rw [Option.map_eq_some'] at hres
    obtain ⟨w, hw, hmap⟩ := hres
    injection hw with hw'
    subst hw'
    have hinv := foldlM_viewStep_lengths phoneIndexes S hrow.length dataRows ([], [])
      v hb hrect (by simp) (by simp)
    have hsnd : ∀ r ∈ v.2.map Prod.snd, r.length = hrow.length := by
      intro r hr
      obtain ⟨p, hp, hpr⟩ := List.mem_map.mp hr
      rw [← hpr]
      exact hinv.2 p hp
    injection hmap with hcls hsps
    subst hcls
    subst hsps
    by_cases hH : hrow.isEmpty
    · rw [if_pos hH, if_pos hH]
      exact ⟨hinv.1, hsnd⟩
    · rw [if_neg hH, if_neg hH]
      refine ⟨?_, ?_⟩
      · intro r hr
        rcases List.mem_cons.mp hr with rfl | hr
        · rfl
        · exact hinv.1 r hr
      · intro r hr
        rcases List.mem_cons.mp hr with rfl | hr
        · rfl
        · exact hsnd r hr

/-- C8 witness (amended theorem): header `["h1", "h2"]` with one matching-width data
row. -/
theorem c8_amended_column_counts_witness :
    (∀ r ∈ [["h1", "h2"], ["L", ""]], r.length = (["h1", "h2"] : Row).length) ∧
    (∀ r ∈ [["h1", "h2"], ["L", "p"]], r.length = (["h1", "h2"] : Row).length) :=
  c8_amended_column_counts ["h1", "h2"] [["L", "p"]] [1] ["p"]
    [["h1", "h2"], ["L", ""]] [["h1", "h2"], ["L", "p"]] (by decide) (by rfl)

/-- C8 (counterexample to the claim as stated): a 3-column header over a 2-column data
row yields a clean output whose data row still has 2 columns — the emitted row count
does not match the header. -/
theorem c8_counterexample :
    processCSV [["a", "b", "c"], ["L", "p"]] [1] ["p"] true
        = some ([["a", "b", "c"], ["L", ""]], [["a", "b", "c"], ["L", "p"]]) ∧
    ["L", ""] ∈ [["a", "b", "c"], ["L", ""]] ∧
    (["L", ""] : Row).length ≠ (["a", "b", "c"] : Row).length :=
  ⟨by rfl, by simp, by decide⟩

/-! ## Pipeline-level properties -/

/-- C5: on a non-empty input whose aggregated suppressed set comes back empty, the run
records the decoded input content itself as the clean output (no blank/retain pass, no
CSV re-rendering) and records an empty `blacklistedFilePath` with no blacklisted upload
in the trace. -/
theorem c5_empty_suppressed_passthrough (decoded : String) (rows : List Row)
    (phoneIndexes : List Nat) (hasHeader : Bool) (api : List String → ApiResponse)
    (fileId fileName : String) (blackUploadOk : Bool)
    (hrows : rows.isEmpty = false)
    (hsupp : call_blacklist_lookup_batched api
        (extractPhones (if hasHeader then rows.tail else rows) phoneIndexes)
      = Except.ok []) :
    process_file_v2 decoded rows phoneIndexes hasHeader api fileId fileName
        true true blackUploadOk
      = (some ⟨decoded, "", none⟩,
         [Event.statusApiCalled, Event.uploadClean decoded, Event.statusDone]) := by
  unfold process_file_v2
  rw [hrows]
  dsimp only
  rw [hsupp]
  rfl

/-- C5 witness: a two-row CSV whose single phone is not suppressed. -/
theorem c5_empty_suppressed_passthrough_witness :
    process_file_v2 "RAW" [["id", "phone"], ["1", "555"]] [1] true
        (fun _ => ⟨200, "", some []⟩) "fid" "f.csv" true true true
      = (some ⟨"RAW", "", none⟩,
         [Event.statusApiCalled, Event.uploadClean "RAW", Event.statusDone]) :=
  c5_empty_suppressed_passthrough "RAW" [["id", "phone"], ["1", "555"]] [1] true
    (fun _ => ⟨200, "", some []⟩) "fid" "f.csv" true rfl (by rfl)

/-- C6 (amended): the single-batch lookup raises exactly when the response status is not
200 (201-299 also raise), carrying the status and body; a 200 response with the
`supression` field absent yields the empty result rather than an error; and a failing
batch aborts the whole job with nothing recorded, no event written, and the partial
batch results discarded. -/
theorem c6_amended_lookup_failure :
    (∀ resp : ApiResponse,
        (∃ e, call_blacklist_lookup resp = Except.error e) ↔ resp.status ≠ 200) ∧
    (∀ resp : ApiResponse, resp.status ≠ 200 →
        call_blacklist_lookup resp = Except.error (resp.status, resp.body)) ∧
    (∀ resp : ApiResponse, resp.status = 200 → resp.supression = none →
        call_blacklist_lookup resp = Except.ok []) ∧
    (∀ (decoded : String) (rows : List Row) (phoneIndexes : List Nat) (hasHeader : Bool)
        (api : List String → ApiResponse) (fileId fileName : String)
        (outputBucketSet cleanUploadOk blackUploadOk : Bool) (e : Nat × String),
        call_blacklist_lookup_batched api
            (extractPhones (if hasHeader then rows.tail else rows) phoneIndexes)
          = Except.error e →
        process_file_v2 decoded rows phoneIndexes hasHeader api fileId fileName
            outputBucketSet cleanUploadOk blackUploadOk = (none, [])) := by
  refine ⟨?_, ?_, ?_, ?_⟩
  · intro resp
    constructor
    · rintro ⟨e, he⟩
      by_contra h200
      unfold call_blacklist_lookup at he
      rw [if_neg (by simp [h200])] at he
      exact Except.noConfusion he
    · intro h
      exact ⟨(resp.status, resp.body), by unfold call_blacklist_lookup; rw [if_pos h]⟩
  · intro resp h
    unfold call_blacklist_lookup
    rw [if_pos h]
  · intro resp h200 hfield
    unfold call_blacklist_lookup
    rw [if_neg (by simp [h200]), hfield]
    rfl
  · intro decoded rows phoneIndexes hasHeader api fileId fileName obs cOk bOk e herr
    unfold process_file_v2
    by_cases hre : rows.isEmpty
    · rw [if_pos hre]
    · rw [if_neg hre]
      dsimp only
      rw [herr]

/-- C6 (counterexample to the claim as stated): status 201 is a 2xx success status, yet
the client raises on it — the code tests `status != 200`, not "non-2xx". -/
theorem c6_counterexample :
    call_blacklist_lookup ⟨201, "Created", some ["5551234"]⟩
        = Except.error (201, "Created") ∧ 200 ≤ 201 ∧ 201 < 300 :=
  ⟨rfl, by norm_num, by norm_num⟩

/-- C6 witness: a 200 response without the `supression` field yields the empty result,
and a failing batch aborts the run with nothing recorded. -/
theorem c6_amended_lookup_failure_witness :
    call_blacklist_lookup ⟨200, "", none⟩ = Except.ok [] ∧
    process_file_v2 "D" [["5"]] [0] false (fun _ => ⟨500, "boom", none⟩) "fid" "f.csv"
        true true true = (none, []) :=
  ⟨c6_amended_lookup_failure.2.2.1 ⟨200, "", none⟩ rfl rfl,
   c6_amended_lookup_failure.2.2.2 "D" [["5"]] [0] false (fun _ => ⟨500, "boom", none⟩)
     "fid" "f.csv" true true true (500, "boom") (by rfl)⟩

/-- C9: the terminal DONE status write happens only after every output upload of the run
succeeded — whenever the trace contains the DONE write, the clean upload succeeded, any
blacklisted upload in the trace succeeded, the DONE write is the final event, and a clean
upload precedes it in the trace; a failed upload truncates the trace before DONE. -/
theorem c9_done_after_uploads (decoded : String) (rows : List Row)
    (phoneIndexes : List Nat) (hasHeader : Bool) (api : List String → ApiResponse)
    (fileId fileName : String) (outputBucketSet cleanUploadOk blackUploadOk : Bool)
    (out : Option Output) (tr : List Event)
    (hrun : process_file_v2 decoded rows phoneIndexes hasHeader api fileId fileName
        outputBucketSet cleanUploadOk blackUploadOk = (out, tr))
    (hdone : Event.statusDone ∈ tr) :
    cleanUploadOk = true ∧
    (∀ c, Event.uploadBlacklisted c ∈ tr → blackUploadOk = true) ∧
    tr.getLast? = some Event.statusDone ∧
    (∃ c, Event.uploadClean c ∈ tr) := by
  unfold process_file_v2 at hrun
  dsimp only at hrun
  repeat' split at hrun
  all_goals injection hrun with h1 h2
  all_goals subst h2
  all_goals try (exfalso; revert hdone; simp; done)
  all_goals refine ⟨by assumption, fun c hc => ?_, rfl,
    ⟨_, List.mem_cons_of_mem _ (List.mem_cons_self _ _)⟩⟩
  all_goals first
    | (exfalso; simp at hc; done)
    | assumption

/-- C9 witness: a successful run whose trace ends in the DONE write. -/
theorem c9_done_after_uploads_witness :
    (true = true) ∧
    (∀ c, Event.uploadBlacklisted c ∈
        [Event.statusApiCalled, Event.uploadClean "RAW", Event.statusDone] →
      true = true) ∧
    ([Event.statusApiCalled, Event.uploadClean "RAW",
        Event.statusDone] : List Event).getLast? = some Event.statusDone ∧
    (∃ c, Event.uploadClean c ∈
        [Event.statusApiCalled, Event.uploadClean "RAW", Event.statusDone]) :=
  c9_done_after_uploads "RAW" [["id", "phone"], ["1", "555"]] [1] true
    (fun _ => ⟨200, "", some []⟩) "fid" "f.csv" true true true
    (some ⟨"RAW", "", none⟩)
    [Event.statusApiCalled, Event.uploadClean "RAW", Event.statusDone]
    (by rfl) (by simp)

end CFProcess
